import Mathlib

/-!
SolSniper bot — shallow embedding of the Risk & Position-Lifecycle Engine.

Source files embedded here:
  * `src/config.ts`            — the `CONFIG` constant tree (only the fields the
                                 claims touch).
  * `src/risk/manager.ts`      — `getDeployableCapital`, `canOpenPosition`,
                                 `calculatePositionSize`.
  * `src/index.ts`             — the ledger (`BotState`) initialisation, the
                                 position record built by `executeDirectBuy`,
                                 and `resetDailyCounters`.
  * `src/monitor/positions.ts` — the fast safety loop's decision ladder
                                 (`fastCheckParallel`), `partialSell`, the
                                 take-profit for-loops of `handleScalp` /
                                 `handleRunner`, and `closePosition`.
  * `src/analyzer/dipBuyer.ts` — the per-entry body of `checkWatchlist`.

Modelling conventions: JS IEEE doubles become exact rationals (the spec's
invariants are stated "within floating tolerance", so exact arithmetic is the
intended idealisation); timestamps are rationals holding milliseconds;
external effects (Jupiter swap results, Discord alerts, price fetches) are
oracle parameters or counters.  `null` becomes `Option`.
-/

namespace CONFIG

namespace risk

/-- `CONFIG.risk.initialCapital` (config.ts line 66). -/
def initialCapital : ℚ := 0.6

/-- `CONFIG.risk.reserveAmount` (config.ts line 67). -/
def reserveAmount : ℚ := 0.06

/-- `CONFIG.risk.maxOpenPositions` (config.ts line 68). -/
def maxOpenPositions : Nat := 18

namespace positionSizes

/-- `CONFIG.risk.positionSizes.low` (config.ts line 70). -/
def low : ℚ := 0.025

/-- `CONFIG.risk.positionSizes.medium` (config.ts line 71). -/
def medium : ℚ := 0.04

/-- `CONFIG.risk.positionSizes.high` (config.ts line 72). -/
def high : ℚ := 0.06

end positionSizes

/-- `CONFIG.risk.maxDailyLoss` (config.ts line 75). -/
def maxDailyLoss : ℚ := 0.30

/-- `CONFIG.risk.pauseDuration` = 20 * 60 * 1000 ms (config.ts line 76). -/
def pauseDuration : ℚ := 1200000

end risk

namespace monitor

/-- `CONFIG.monitor.secureProfits` (config.ts lines 116-119):
(trigger fraction, sell fraction) pairs of the scalp take-profit ladder. -/
def secureProfits : List (ℚ × ℚ) := [(0.20, 0.30), (0.40, 0.30)]

/-- `CONFIG.monitor.maxTrailingLoss` (config.ts line 133). -/
def maxTrailingLoss : ℚ := -20

end monitor

namespace runner

/-- `CONFIG.runner.secureProfits` (config.ts lines 96-100). -/
def secureProfits : List (ℚ × ℚ) := [(0.50, 0.15), (1.50, 0.15), (3.00, 0.10)]

end runner

namespace dipBuyer

/-- `CONFIG.dipBuyer.maxWatchDuration` = 10 * 60 * 1000 ms (config.ts line 57). -/
def maxWatchDuration : ℚ := 600000

/-- `CONFIG.dipBuyer.minDipPercent` (config.ts line 58). -/
def minDipPercent : ℚ := 5

/-- `CONFIG.dipBuyer.maxDipPercent` (config.ts line 59). -/
def maxDipPercent : ℚ := 35

/-- `CONFIG.dipBuyer.reboundConfirmPercent` (config.ts line 60). -/
def reboundConfirmPercent : ℚ := 2

end dipBuyer

end CONFIG

/-- `Position.status` values `'open' | 'partial' | 'closed'` (types.ts):
`opn` = `'open'`, `part` = `'partial'`, `closed` = `'closed'`. -/
inductive PosStatus
  | opn
  | part
  | closed
deriving DecidableEq, Repr

/-- `Position.closeReason` values (types.ts). -/
inductive CloseReason
  | stop_loss
  | take_profit
  | trailing_stop
  | timeout_close
  | dead_volume
  | manual
deriving DecidableEq, Repr

/-- The `Position` interface (types.ts), restricted to the numeric/flag fields
the risk engine reads or writes.  String identity becomes a numeric `id`;
`isRunner?: boolean` (undefined ≡ false) becomes `Bool`. -/
structure Position where
  id : Nat
  entryPriceSol : ℚ
  entryAmountSol : ℚ
  tokenAmount : ℚ
  entryTime : ℚ
  currentPriceSol : ℚ
  highestPriceSol : ℚ
  pnlPercent : ℚ
  pnlSol : ℚ
  remainingPercent : ℚ
  takeProfitStage : Nat
  isRunner : Bool
  status : PosStatus
deriving DecidableEq, Repr

/-- The `BotState` ledger (types.ts / index.ts lines 23-39), restricted to the
fields the claims touch.  `pauseUntil: number | null` becomes `Option ℚ`. -/
structure BotState where
  totalCapitalSol : ℚ
  availableCapitalSol : ℚ
  openPositions : List Position
  closedToday : List Position
  dailyPnlSol : ℚ
  dailyPnlPercent : ℚ
  dailyTradeCount : Nat
  dailyWinCount : Nat
  dailyLossCount : Nat
  isPaused : Bool
  pauseUntil : Option ℚ
deriving DecidableEq, Repr

/-- The ledger as `main` initialises it (index.ts lines 23-39 and 64-65):
`totalCapitalSol = availableCapitalSol = balance`, everything else empty. -/
def mkInit (balance : ℚ) : BotState :=
  { totalCapitalSol := balance
    availableCapitalSol := balance
    openPositions := []
    closedToday := []
    dailyPnlSol := 0
    dailyPnlPercent := 0
    dailyTradeCount := 0
    dailyWinCount := 0
    dailyLossCount := 0
    isPaused := false
    pauseUntil := none }

/-- `getDeployableCapital` (manager.ts lines 14-17). -/
def getDeployableCapital (s : BotState) : ℚ :=
  max 0 (s.availableCapitalSol - CONFIG.risk.reserveAmount)

/-- Result of `canOpenPosition`: the `allowed` flag of the returned object plus
a count of `notifyRiskAlert` calls made during the invocation (the external
Discord notifier is modelled as an event counter). -/
structure GateResult where
  allowed : Bool
  alerts : Nat
deriving DecidableEq, Repr

/-- `canOpenPosition` checks after the pause gate (manager.ts lines 34-59):
max-position cap, daily-loss ceiling (with the pause side effect and one risk
alert), deployable-capital dust floor. -/
def gateChecks (s : BotState) (now : ℚ) : BotState × GateResult :=
  if CONFIG.risk.maxOpenPositions ≤ s.openPositions.length then
    (s, ⟨false, 0⟩)
  else
    let dailyLossPercent := |s.dailyPnlSol| / CONFIG.risk.initialCapital
    if s.dailyPnlSol < 0 ∧ CONFIG.risk.maxDailyLoss ≤ dailyLossPercent then
      ({ s with isPaused := true,
                pauseUntil := some (now + CONFIG.risk.pauseDuration) },
       ⟨false, 1⟩)
    else if getDeployableCapital s < 0.005 then
      (s, ⟨false, 0⟩)
    else
      (s, ⟨true, 0⟩)

/-- `canOpenPosition` (manager.ts lines 22-60).  `Date.now()` is the `now`
argument; the function both returns the verdict and mutates the ledger
(pause clearing, pause setting), so it returns the new ledger too. -/
def canOpenPosition (s : BotState) (now : ℚ) : BotState × GateResult :=
  if s.isPaused then
    match s.pauseUntil with
    | some t =>
        if now < t then (s, ⟨false, 0⟩)
        else gateChecks { s with isPaused := false, pauseUntil := none } now
    | none => gateChecks { s with isPaused := false, pauseUntil := none } now
  else
    gateChecks s now

/-- `calculatePositionSize` (manager.ts lines 65-111); `analysis.score` is the
`score` argument, all other inputs come from the ledger. -/
def calculatePositionSize (score : ℚ) (s : BotState) : ℚ :=
  let deployable := getDeployableCapital s
  let sizePercent :=
    if 60 ≤ score then CONFIG.risk.positionSizes.high
    else if 50 ≤ score then CONFIG.risk.positionSizes.medium
    else CONFIG.risk.positionSizes.low
  let base := deployable * sizePercent
  let afterLoss :=
    if s.dailyPnlSol < 0 then
      let lossRatio := |s.dailyPnlSol| / CONFIG.risk.initialCapital
      base * max 0.5 (1 - lossRatio)
    else base
  let afterWin :=
    if 0 < s.dailyPnlSol ∧ 2 < s.dailyWinCount ∧
       (0.6 : ℚ) < (s.dailyWinCount : ℚ) / (max 1 s.dailyTradeCount : Nat) then
      afterLoss * 1.1
    else afterLoss
  min (getDeployableCapital s * 0.15) (max 0.003 afterWin)

/-- `resetDailyCounters` (index.ts lines 346-356). -/
def resetDailyCounters (s : BotState) : BotState :=
  { s with dailyPnlSol := 0
           dailyPnlPercent := 0
           dailyTradeCount := 0
           dailyWinCount := 0
           dailyLossCount := 0
           closedToday := []
           isPaused := false
           pauseUntil := none }

/-- The fast safety loop's per-position decision once a price has been
fetched (positions.ts `fastCheckParallel` lines 116-159): price/P&L/high-water
update followed by quick-cut, early stop, hard stop, the anti-Dashan
trailing-loss ceiling, and runner breakeven.  Returns the close reason passed
to `closePosition`, or `none` when the tick leaves the position open. -/
def fastPriceDecision (p : Position) (price now : ℚ) : Option CloseReason :=
  let pnl := (price - p.entryPriceSol) / p.entryPriceSol * 100
  let highest := if p.highestPriceSol < price then price else p.highestPriceSol
  let age := now - p.entryTime
  if age < 30000 ∧ pnl ≤ -4 ∧ p.isRunner = false then
    some .stop_loss
  else if age < 60000 ∧ pnl ≤ -7 ∧ p.isRunner = false then
    some .stop_loss
  else if pnl ≤ -12 ∧ p.isRunner = false then
    some .stop_loss
  else if pnl ≤ CONFIG.monitor.maxTrailingLoss ∧ p.isRunner = false then
    some .trailing_stop
  else if p.isRunner = true ∧ pnl ≤ 2 ∧
          15 ≤ (highest - p.entryPriceSol) / p.entryPriceSol * 100 then
    some .trailing_stop
  else
    none

/-- `partialSell` (positions.ts lines 313-325).  `result` is the oracle
outcome of `executeSell`: `none` = failure, `some r` = success with `r` SOL
received.  (The effective percentage `min 100 (pct / remaining * 100)` is
only forwarded to the executor and does not affect the state update.)  On
failure nothing changes; on success the position's remaining fraction and
status and the ledger's P&L and available capital are updated. -/
def partialSellStep (p : Position) (s : BotState) (pct : ℚ)
    (result : Option ℚ) : Position × BotState :=
  match result with
  | none => (p, s)
  | some r =>
      let p' := { p with
        remainingPercent := p.remainingPercent - pct
        status := if p.remainingPercent - pct ≤ 0 then .closed else .part }
      let pnl := r - p.entryAmountSol * (pct / 100)
      (p', { s with
        dailyPnlSol := s.dailyPnlSol + pnl
        dailyPnlPercent := (s.dailyPnlSol + pnl) / CONFIG.risk.initialCapital * 100
        availableCapitalSol := s.availableCapitalSol + r })

/-- Outcome of one run of a take-profit for-loop: final ledger, final
position, total SOL received from successful partial sells, total committed
capital released by them (`entryAmountSol * pct/100` per success), and the
number of `executeSell` attempts made. -/
structure TPRes where
  s : BotState
  p : Position
  recv : ℚ
  rel : ℚ
  fires : Nat
deriving DecidableEq, Repr

/-- SOL received from one `executeSell` outcome. -/
def sellRecv (result : Option ℚ) : ℚ := result.getD 0

/-- Committed capital released by one `executeSell` outcome (zero on
failure, `entry * pct/100` on success, mirroring `partialSell`). -/
def sellRel (result : Option ℚ) (entry pct : ℚ) : ℚ :=
  match result with
  | none => 0
  | some _ => entry * (pct / 100)

/-- The take-profit for-loop shared by `handleScalp` (lines 250-256) and
`handleRunner` (lines 281-287): iterate `i` from `takeProfitStage` to the end
of the ladder; when `pnlPercent ≥ trigger*100`, call `executeSell` (outcome
`results.getD i none`) through `partialSell` and set `takeProfitStage := i+1`
unconditionally.  `rest` is the ladder suffix from index `i`. -/
def tpGo (results : List (Option ℚ)) :
    BotState → Position → List (ℚ × ℚ) → Nat → TPRes
  | s, p, [], _ => ⟨s, p, 0, 0, 0⟩
  | s, p, (trig, sell) :: rest, i =>
      if trig * 100 ≤ p.pnlPercent then
        let pct := sell * 100
        let res := results.getD i none
        let ps := partialSellStep p s pct res
        let p2 := { ps.1 with takeProfitStage := i + 1 }
        let out := tpGo results ps.2 p2 rest (i + 1)
        { out with recv := sellRecv res + out.recv
                   rel := sellRel res p.entryAmountSol pct + out.rel
                   fires := out.fires + 1 }
      else
        tpGo results s p rest (i + 1)

/-- The ladder a position's take-profit loop walks: `CONFIG.runner.secureProfits`
in runner mode, `CONFIG.monitor.secureProfits` in scalp mode. -/
def ladderFor (p : Position) : List (ℚ × ℚ) :=
  if p.isRunner then CONFIG.runner.secureProfits else CONFIG.monitor.secureProfits

/-- One invocation of the take-profit loop on position `p` in ledger `s`:
the loop body runs for indices `takeProfitStage ≤ i < ladder.length`. -/
def runTPPos (s : BotState) (p : Position) (results : List (Option ℚ)) : TPRes :=
  tpGo results s p ((ladderFor p).drop p.takeProfitStage) p.takeProfitStage

/-- The `Position` record pushed by `executeDirectBuy` on a successful buy
(index.ts lines 239-260).  Execution-dependent values (`result.priceSol`,
`result.tokenAmount`) and `Date.now()` arrive as oracle parameters. -/
def mkPosition (pid : Nat) (amountSol priceSol tokenAmount : ℚ)
    (isEarlyRunner : Bool) (time : ℚ) : Position :=
  { id := pid
    entryPriceSol := priceSol
    entryAmountSol := amountSol
    tokenAmount := tokenAmount
    entryTime := time
    currentPriceSol := priceSol
    highestPriceSol := priceSol
    pnlPercent := 0
    pnlSol := 0
    remainingPercent := 100
    takeProfitStage := 0
    isRunner := isEarlyRunner
    status := .opn }

/-- The price/P&L/high-water refresh of `checkPosition`
(positions.ts lines 174-177). -/
def refreshPos (p : Position) (price : ℚ) : Position :=
  { p with
    currentPriceSol := price
    pnlPercent := (price - p.entryPriceSol) / p.entryPriceSol * 100
    pnlSol := (price - p.entryPriceSol) * p.tokenAmount * (p.remainingPercent / 100)
    highestPriceSol := if p.highestPriceSol < price then price else p.highestPriceSol }

/-- Replace the first list element whose `id` equals `pid` — in the source the
monitor mutates the position object held inside `state.openPositions`. -/
def replaceFirst (l : List Position) (pid : Nat) (q : Position) : List Position :=
  match l with
  | [] => []
  | x :: rest => if x.id = pid then q :: rest else x :: replaceFirst rest pid q

/-- Ledger-mutating events of the engine.  Each constructor corresponds to one
mutation site in the source; outcomes of external calls (`executeBuy`,
`executeSell`, price fetches) are carried as oracle data:
  * `openPos`  — a successful `executeBuy` registered by `executeDirectBuy`
    (index.ts lines 239-263): push the new position, debit `amountSol`.
  * `updatePrice` — the price/P&L refresh of `checkPosition`.
  * `promote`  — runner promotion (`position.isRunner = true`).
  * `tpCheck`  — one run of the take-profit for-loop of `handleScalp` /
    `handleRunner`; `results.getD i none` is the `executeSell` outcome for
    ladder stage `i`.
  * `closePos` — `closePosition` (positions.ts lines 327-363) with the
    `executeSell` outcome (`none` = failure, whereupon `returned = 0`). -/
inductive Op
  | openPos (pid : Nat) (amountSol priceSol tokenAmount : ℚ)
      (isEarlyRunner : Bool) (time : ℚ)
  | updatePrice (pid : Nat) (price : ℚ)
  | promote (pid : Nat)
  | tpCheck (pid : Nat) (results : List (Option ℚ))
  | closePos (pid : Nat) (result : Option ℚ)
deriving DecidableEq, Repr

/-- One engine event applied to the ledger.  Ops naming an absent id, a
duplicate id (ids are fresh `pos_<timestamp>_<random>` strings in the source)
or an already-closed position (both monitor loops filter those out) leave the
ledger unchanged. -/
def applyOp (s : BotState) : Op → BotState
  | .openPos pid amountSol priceSol tokenAmount isEarlyRunner time =>
      if s.openPositions.any (fun q => q.id == pid) then s
      else
        { s with
          openPositions :=
            s.openPositions ++ [mkPosition pid amountSol priceSol tokenAmount isEarlyRunner time]
          availableCapitalSol := s.availableCapitalSol - amountSol }
  | .updatePrice pid price =>
      if price = 0 then s
      else
        match s.openPositions.find? (fun q => q.id == pid) with
        | none => s
        | some p =>
            if p.status = .closed then s
            else { s with openPositions := replaceFirst s.openPositions pid (refreshPos p price) }
  | .promote pid =>
      match s.openPositions.find? (fun q => q.id == pid) with
      | none => s
      | some p =>
          if p.status = .closed then s
          else { s with openPositions := replaceFirst s.openPositions pid { p with isRunner := true } }
  | .tpCheck pid results =>
      match s.openPositions.find? (fun q => q.id == pid) with
      | none => s
      | some p =>
          if p.status = .closed then s
          else
            let out := runTPPos s p results
            { out.s with openPositions := replaceFirst s.openPositions pid out.p }
  | .closePos pid result =>
      match s.openPositions.find? (fun q => q.id == pid) with
      | none => s
      | some p =>
          if p.status = .closed then s
          else
            let returned := result.getD 0
            let pnlSol := returned - p.entryAmountSol
            { s with
              dailyPnlSol := s.dailyPnlSol + pnlSol
              dailyPnlPercent := (s.dailyPnlSol + pnlSol) / CONFIG.risk.initialCapital * 100
              dailyTradeCount := s.dailyTradeCount + 1
              dailyWinCount := if 0 < pnlSol then s.dailyWinCount + 1 else s.dailyWinCount
              dailyLossCount := if 0 < pnlSol then s.dailyLossCount else s.dailyLossCount + 1
              availableCapitalSol := s.availableCapitalSol + returned
              openPositions := s.openPositions.filter (fun q => q.id != pid) }

/-- Run a sequence of engine events. -/
def run (s : BotState) (ops : List Op) : BotState :=
  ops.foldl applyOp s

/-- Capital committed to open positions:
`Σ entryAmountSol * remainingPercent/100` (the sum in `syncCapital`,
manager.ts lines 161-164). -/
def committedCapital : List Position → ℚ
  | [] => 0
  | p :: rest => p.entryAmountSol * (p.remainingPercent / 100) + committedCapital rest

/-- Realized difference contributed by one event: SOL proceeds credited to
`availableCapitalSol` minus committed capital released from the open
positions.  Zero except for successful partial sells (`recv - rel` of the
take-profit loop) and closes (`returned - entry*remaining/100`). -/
def driftOp (s : BotState) : Op → ℚ
  | .tpCheck pid results =>
      (match s.openPositions.find? (fun q => q.id == pid) with
       | none => 0
       | some p =>
           if p.status = .closed then 0
           else
             let out := runTPPos s p results
             out.recv - out.rel)
  | .closePos pid result =>
      (match s.openPositions.find? (fun q => q.id == pid) with
       | none => 0
       | some p =>
           if p.status = .closed then 0
           else result.getD 0 - p.entryAmountSol * (p.remainingPercent / 100))
  | _ => 0

/-- Accumulated realized difference along a trace of events. -/
def runDrift : BotState → List Op → ℚ
  | _, [] => 0
  | s, op :: ops => driftOp s op + runDrift (applyOp s op) ops

/-- `WatchedToken.state` values (dipBuyer.ts line 25). -/
inductive WatchState
  | watching
  | dip_detected
  | waiting_rebound
  | buy_signal
  | expired
  | abandoned
deriving DecidableEq, Repr

/-- The `WatchedToken` record (dipBuyer.ts lines 16-26), numeric fields only. -/
structure WatchedToken where
  addedAt : ℚ
  highestPrice : ℚ
  lowestSinceHigh : ℚ
  currentPrice : ℚ
  lastCheck : ℚ
  dipDetected : Bool
  dipPercent : ℚ
  state : WatchState
deriving DecidableEq, Repr

/-- What one `checkWatchlist` pass does with an entry:
  * `kept`    — the (possibly updated) entry stays in the watchlist;
  * `removed` — `watchlist.delete` without buying (expired or abandoned);
  * `bought`  — the buy callback `onBuySignal` is invoked exactly once and the
    entry is then deleted from the watchlist (dipBuyer.ts lines 202-208). -/
inductive WatchOutcome
  | kept
  | removed
  | bought
deriving DecidableEq, Repr

/-- The price bookkeeping of `checkWatchlist` once a non-zero price arrived
(dipBuyer.ts lines 133-149): current price, last-check time, high-water mark
(resetting the low on a new high), low since high, retracement percent. -/
def trackPrice (w : WatchedToken) (price now : ℚ) : WatchedToken :=
  let w1 := { w with currentPrice := price, lastCheck := now }
  let w2 :=
    if w1.highestPrice < price then
      { w1 with highestPrice := price, lowestSinceHigh := price }
    else w1
  let w3 := if price < w2.lowestSinceHigh then { w2 with lowestSinceHigh := price } else w2
  { w3 with dipPercent := (w3.highestPrice - w3.lowestSinceHigh) / w3.highestPrice * 100 }

/-- The body of `checkWatchlist` for one entry (dipBuyer.ts lines 119-216).
`price` is the `fetchCurrentPrice` result (`none` = no price) and
`confirmRead` the second read taken after the 2-second confirmation delay;
both are oracle data.  Falsy JS prices (`null` or `0`) skip the entry. -/
def checkEntry (w : WatchedToken) (now : ℚ) (price : Option ℚ)
    (confirmRead : Option ℚ) : WatchedToken × WatchOutcome :=
  if CONFIG.dipBuyer.maxWatchDuration < now - w.addedAt then
    ({ w with state := .expired }, .removed)
  else
    match price with
    | none => (w, .kept)
    | some pr =>
        if pr = 0 then (w, .kept)
        else
          let w' := trackPrice w pr now
          let dipFromHigh := w'.dipPercent
          match w'.state with
          | .watching =>
              if CONFIG.dipBuyer.maxDipPercent ≤ dipFromHigh then
                ({ w' with state := .abandoned }, .removed)
              else if CONFIG.dipBuyer.minDipPercent ≤ dipFromHigh then
                ({ w' with dipDetected := true, state := .waiting_rebound }, .kept)
              else (w', .kept)
          | .waiting_rebound =>
              if CONFIG.dipBuyer.maxDipPercent ≤ dipFromHigh then
                ({ w' with state := .abandoned }, .removed)
              else
                let reboundFromLow := (pr - w'.lowestSinceHigh) / w'.lowestSinceHigh * 100
                if CONFIG.dipBuyer.reboundConfirmPercent ≤ reboundFromLow then
                  match confirmRead with
                  | none => (w', .kept)
                  | some cp =>
                      if cp ≤ w'.lowestSinceHigh then (w', .kept)
                      else
                        let confirmedRebound :=
                          (cp - w'.lowestSinceHigh) / w'.lowestSinceHigh * 100
                        if confirmedRebound < CONFIG.dipBuyer.reboundConfirmPercent then
                          (w', .kept)
                        else ({ w' with state := .buy_signal }, .bought)
                else (w', .kept)
          | _ => (w', .kept)

/-- An example ledger that is paused until timestamp 1000. -/
def pausedEx : BotState :=
  { mkInit 0.6 with isPaused := true, pauseUntil := some 1000 }

/-- A filler open position used to build example ledgers. -/
def posFiller : Position :=
  { id := 0
    entryPriceSol := 1
    entryAmountSol := 0.01
    tokenAmount := 1
    entryTime := 0
    currentPriceSol := 1
    highestPriceSol := 1
    pnlPercent := 0
    pnlSol := 0
    remainingPercent := 100
    takeProfitStage := 0
    isRunner := false
    status := .opn }

/-- A ledger whose position book is full (18 open positions) while today's
P&L is −0.3 SOL on an initial capital of 0.6 (loss ratio 50% ≥ the 30%
ceiling). -/
def fullBookLoss : BotState :=
  { mkInit 0.6 with
    openPositions := List.replicate 18 posFiller
    dailyPnlSol := -0.3
    dailyPnlPercent := -50 }

/-- An unpaused, empty-book ledger with a 33% daily loss ratio. -/
def sLossEx : BotState := { mkInit 0.6 with dailyPnlSol := -0.2 }

/-- A ledger whose available capital equals the reserve floor, so deployable
capital is zero. -/
def drainedEx : BotState := { mkInit 0.6 with availableCapitalSol := 0.06 }

/-- An example runner position bought at price 1. -/
def runnerEx : Position :=
  { posFiller with id := 7, entryAmountSol := 0.05, tokenAmount := 50, isRunner := true }

/-- The non-runner twin of `runnerEx`. -/
def scalperEx : Position := { runnerEx with id := 8, isRunner := false }

/-- A fresh watchlist entry recorded at price 100. -/
def watchEx : WatchedToken :=
  { addedAt := 0
    highestPrice := 100
    lowestSinceHigh := 100
    currentPrice := 100
    lastCheck := 0
    dipDetected := false
    dipPercent := 0
    state := .watching }

/-- The same entry after the 6% dip was detected. -/
def watchRebEx : WatchedToken :=
  { watchEx with lowestSinceHigh := 94, currentPrice := 94, lastCheck := 10,
                 dipDetected := true, dipPercent := 6, state := .waiting_rebound }

/-- A 0.1 SOL position with id 1. -/
def pos1Ex : Position := { posFiller with id := 1, entryAmountSol := 0.1 }

/-- A ledger holding exactly that one open position. -/
def oneOpenEx : BotState :=
  { mkInit 0.6 with availableCapitalSol := 0.5, openPositions := [pos1Ex] }

/-- Total sell mass (in percent points, `sellPercent * 100` per stage) of a
take-profit ladder suffix. -/
def ladderSum : List (ℚ × ℚ) → ℚ
  | [] => 0
  | x :: rest => x.2 * 100 + ladderSum rest

/-- The take-profit ladder used by a behavioral mode flag. -/
def ladderOf (r : Bool) : List (ℚ × ℚ) :=
  if r then CONFIG.runner.secureProfits else CONFIG.monitor.secureProfits

/-- Worst-case future ladder sell mass of a position at ladder index `i` in
mode `r`, counting the sells a later promotion to runner mode could add. -/
def tpBound (r : Bool) (i : Nat) : ℚ :=
  (if r then 0 else ladderSum (CONFIG.monitor.secureProfits.drop i))
    + ladderSum (CONFIG.runner.secureProfits.drop i)

/-- Percentage actually removed from the remaining fraction by one
`executeSell` outcome. -/
def sellDec (res : Option ℚ) (pct : ℚ) : ℚ :=
  match res with
  | none => 0
  | some _ => pct

/-- Invariant of an open position: its remaining fraction dominates the
worst-case future ladder sell mass and never exceeds 100. -/
def PosOk (p : Position) : Prop :=
  tpBound p.isRunner p.takeProfitStage ≤ p.remainingPercent ∧
  p.remainingPercent ≤ 100

/-- A one-event trace opening position 1 for 0.1 SOL. -/
def openOps : List Op := [Op.openPos 1 0.1 0.001 100 false 0]

/-- Ledger discrepancy tracked by C1: available minus (total − committed). -/
def gap (s : BotState) : ℚ :=
  s.availableCapitalSol - s.totalCapitalSol + committedCapital s.openPositions

/-- Open-position ids are pairwise distinct (the source generates them as
`pos_<timestamp>_<random>` strings). -/
def IdsOk (l : List Position) : Prop :=
  (l.map (fun p => p.id)).Nodup

/-- A trace that opens position 1 for 0.1 SOL and closes it for 0.2 SOL of
proceeds (a profitable close). -/
def c1Ops : List Op :=
  [Op.openPos 1 0.1 0.001 100 false 0, Op.closePos 1 (some 0.2)]

/-- C10: `resetDailyCounters` zeroes the daily performance counters and also
clears the pause — `isPaused` becomes false and `pauseUntil` becomes null —
so a risk-breach pause never survives the daily reset, even when `pauseUntil`
is still in the future at reset time. -/
theorem resetDailyCounters_clears_pause (s : BotState) :
    (resetDailyCounters s).isPaused = false ∧
    (resetDailyCounters s).pauseUntil = none ∧
    (resetDailyCounters s).dailyPnlSol = 0 ∧
    (resetDailyCounters s).dailyTradeCount = 0 := by
  simp [resetDailyCounters]

/-- C4: `canOpenPosition` never returns allowed while `isPaused` is true and
`pauseUntil` is a future timestamp; and when invoked with `isPaused` true and
`now ≥ pauseUntil` it clears the pause (`isPaused := false`,
`pauseUntil := null`) before evaluating the remaining checks. -/
theorem canOpenPosition_pause (s : BotState) (now t : ℚ)
    (hp : s.isPaused = true) (ht : s.pauseUntil = some t) :
    (now < t → (canOpenPosition s now).2.allowed = false) ∧
    (t ≤ now →
      canOpenPosition s now =
        gateChecks { s with isPaused := false, pauseUntil := none } now) := by
  constructor
  · intro h
    simp [canOpenPosition, hp, ht, h]
  · intro h
    simp [canOpenPosition, hp, ht, not_lt.mpr h]

/-- Witness for C4 at a concrete paused ledger: denied at `now = 500 < 1000`;
at `now = 2000 ≥ 1000` the call equals the remaining checks on the
pause-cleared ledger. -/
theorem canOpenPosition_pause_witness :
    ((canOpenPosition pausedEx 500).2.allowed = false) ∧
    (canOpenPosition pausedEx 2000 =
      gateChecks { pausedEx with isPaused := false, pauseUntil := none } 2000) :=
  ⟨(canOpenPosition_pause pausedEx 500 1000 rfl rfl).1 (by norm_num),
   (canOpenPosition_pause pausedEx 2000 1000 rfl rfl).2 (by norm_num)⟩

/-- C5 counterexample: invoked with negative daily P&L at a 50% loss ratio —
beyond the 30% ceiling — but with the position book full, `canOpenPosition`
denies at the earlier max-position check: it does NOT set `isPaused` and
emits NO risk alert, contradicting the claim as stated. -/
theorem canOpenPosition_dailyLoss_counterexample :
    fullBookLoss.dailyPnlSol < 0 ∧
    CONFIG.risk.maxDailyLoss ≤ |fullBookLoss.dailyPnlSol| / CONFIG.risk.initialCapital ∧
    (canOpenPosition fullBookLoss 0).2.allowed = false ∧
    (canOpenPosition fullBookLoss 0).1.isPaused = false ∧
    (canOpenPosition fullBookLoss 0).2.alerts = 0 := by
  norm_num [fullBookLoss, mkInit, canOpenPosition, gateChecks,
    CONFIG.risk.maxOpenPositions, CONFIG.risk.maxDailyLoss,
    CONFIG.risk.initialCapital, abs, max_def]

/-- Helper: the later gate checks under an exceeded daily-loss ceiling and a
non-full book reach the risk-breach branch. -/
theorem gateChecks_dailyLoss (s : BotState) (now : ℚ)
    (hcap : s.openPositions.length < CONFIG.risk.maxOpenPositions)
    (hneg : s.dailyPnlSol < 0)
    (hloss : CONFIG.risk.maxDailyLoss ≤ |s.dailyPnlSol| / CONFIG.risk.initialCapital) :
    gateChecks s now =
      ({ s with isPaused := true,
                pauseUntil := some (now + CONFIG.risk.pauseDuration) },
       ⟨false, 1⟩) := by
  unfold gateChecks
  rw [if_neg (not_le.mpr hcap), if_pos ⟨hneg, hloss⟩]

/-- C5 amended: whenever `canOpenPosition` is invoked with `dailyPnlSol`
negative and loss ratio at or beyond the daily-loss ceiling — provided the
invocation is not short-circuited earlier, i.e. no unexpired pause is active
and the open-position count is below the cap — it denies, sets `isPaused`
true and `pauseUntil` strictly in the future, and emits exactly one risk
alert. -/
theorem canOpenPosition_dailyLoss (s : BotState) (now : ℚ)
    (hpause : s.isPaused = true → ∀ t, s.pauseUntil = some t → t ≤ now)
    (hcap : s.openPositions.length < CONFIG.risk.maxOpenPositions)
    (hneg : s.dailyPnlSol < 0)
    (hloss : CONFIG.risk.maxDailyLoss ≤ |s.dailyPnlSol| / CONFIG.risk.initialCapital) :
    (canOpenPosition s now).2.allowed = false ∧
    (canOpenPosition s now).1.isPaused = true ∧
    (canOpenPosition s now).1.pauseUntil = some (now + CONFIG.risk.pauseDuration) ∧
    now < now + CONFIG.risk.pauseDuration ∧
    (canOpenPosition s now).2.alerts = 1 := by
  have hfut : now < now + CONFIG.risk.pauseDuration := by
    have h0 : (0 : ℚ) < CONFIG.risk.pauseDuration := by
      norm_num [CONFIG.risk.pauseDuration]
    linarith
  have hclr := gateChecks_dailyLoss { s with isPaused := false, pauseUntil := none } now
    (by simpa using hcap) (by simpa using hneg) (by simpa using hloss)
  cases hb : s.isPaused with
  | false =>
      rw [show canOpenPosition s now = gateChecks s now by simp [canOpenPosition, hb]]
      rw [gateChecks_dailyLoss s now hcap hneg hloss]
      exact ⟨rfl, rfl, rfl, hfut, rfl⟩
  | true =>
      cases hu : s.pauseUntil with
      | none =>
          rw [show canOpenPosition s now =
                gateChecks { s with isPaused := false, pauseUntil := none } now by
              simp [canOpenPosition, hb, hu]]
          rw [hclr]
          exact ⟨rfl, rfl, rfl, hfut, rfl⟩
      | some t =>
          have hle : t ≤ now := hpause hb t hu
          rw [show canOpenPosition s now =
                gateChecks { s with isPaused := false, pauseUntil := none } now by
              simp [canOpenPosition, hb, hu, not_lt.mpr hle]]
          rw [hclr]
          exact ⟨rfl, rfl, rfl, hfut, rfl⟩

/-- Witness for C5 (amended) at a concrete ledger. -/
theorem canOpenPosition_dailyLoss_witness :
    (canOpenPosition sLossEx 0).2.allowed = false ∧
    (canOpenPosition sLossEx 0).1.isPaused = true ∧
    (canOpenPosition sLossEx 0).1.pauseUntil = some (0 + CONFIG.risk.pauseDuration) ∧
    (0 : ℚ) < 0 + CONFIG.risk.pauseDuration ∧
    (canOpenPosition sLossEx 0).2.alerts = 1 :=
  canOpenPosition_dailyLoss sLossEx 0
    (fun h => by simp [sLossEx, mkInit] at h)
    (by norm_num [sLossEx, mkInit, CONFIG.risk.maxOpenPositions])
    (by norm_num [sLossEx, mkInit])
    (by norm_num [sLossEx, mkInit, CONFIG.risk.maxDailyLoss,
          CONFIG.risk.initialCapital, abs, max_def])

/-- C6 counterexample: with zero deployable capital `calculatePositionSize`
returns 0, strictly below the claimed 0.003 minimum — the 15%-of-deployable
cap is applied after the dust floor and wins when it is smaller. -/
theorem calculatePositionSize_counterexample :
    calculatePositionSize 65 drainedEx = 0 ∧
    ¬ (0.003 ≤ calculatePositionSize 65 drainedEx) := by
  norm_num [calculatePositionSize, getDeployableCapital, drainedEx, mkInit,
    CONFIG.risk.reserveAmount, CONFIG.risk.positionSizes.high, max_def, min_def]

/-- C6 amended: whenever the 15%-of-deployable cap is at least the 0.003 dust
floor, `calculatePositionSize` lies within `[0.003, 0.15 × deployable]` for
every opportunity score and ledger state; floor and cap are applied after the
loss-shrink and win-streak-grow adjustments, the cap last. -/
theorem calculatePositionSize_bounds (score : ℚ) (s : BotState)
    (h : (0.003 : ℚ) ≤ getDeployableCapital s * 0.15) :
    0.003 ≤ calculatePositionSize score s ∧
    calculatePositionSize score s ≤ getDeployableCapital s * 0.15 := by
  unfold calculatePositionSize
  exact ⟨le_min h (le_max_left _ _), min_le_left _ _⟩

/-- Witness for C6 (amended) at the freshly initialised 0.6 SOL ledger:
deployable = 0.54, cap = 0.081 ≥ 0.003. -/
theorem calculatePositionSize_bounds_witness :
    ((0.003 : ℚ) ≤ getDeployableCapital (mkInit 0.6) * 0.15) ∧
    0.003 ≤ calculatePositionSize 65 (mkInit 0.6) ∧
    calculatePositionSize 65 (mkInit 0.6) ≤ getDeployableCapital (mkInit 0.6) * 0.15 := by
  have h : (0.003 : ℚ) ≤ getDeployableCapital (mkInit 0.6) * 0.15 := by
    norm_num [getDeployableCapital, mkInit, CONFIG.risk.reserveAmount, max_def]
  exact ⟨h, calculatePositionSize_bounds 65 (mkInit 0.6) h⟩

/-- C3 counterexample: a runner position whose live P&L is −25% — at or below
the −20% `maxTrailingLoss` ceiling — is NOT closed by the fast safety loop on
that tick: every stop branch, the anti-Dashan ceiling included, requires
`!isRunner`, and the runner breakeven rule needs a +15% peak. -/
theorem maxTrailingLoss_counterexample :
    ((0.75 : ℚ) - runnerEx.entryPriceSol) / runnerEx.entryPriceSol * 100 ≤
      CONFIG.monitor.maxTrailingLoss ∧
    runnerEx.isRunner = true ∧
    fastPriceDecision runnerEx 0.75 10000000 = none := by
  norm_num [fastPriceDecision, runnerEx, posFiller, CONFIG.monitor.maxTrailingLoss]

/-- C3 amended: the absolute trailing-loss ceiling applies only to non-runner
positions: for every non-runner whose freshly fetched price puts its live P&L
at or below −20%, the fast safety loop closes it on that tick (in fact the
−12% hard stop fires first, so the dedicated ceiling branch is unreachable);
positions in runner mode are exempt. -/
theorem maxTrailingLoss_nonrunner (p : Position) (price now : ℚ)
    (hr : p.isRunner = false)
    (hl : (price - p.entryPriceSol) / p.entryPriceSol * 100 ≤
      CONFIG.monitor.maxTrailingLoss) :
    (fastPriceDecision p price now).isSome = true := by
  have hl20 : (price - p.entryPriceSol) / p.entryPriceSol * 100 ≤ -20 := by
    have he : CONFIG.monitor.maxTrailingLoss = -20 := rfl
    linarith [he ▸ hl]
  have h12 : (price - p.entryPriceSol) / p.entryPriceSol * 100 ≤ -12 := by linarith
  unfold fastPriceDecision
  split_ifs <;> simp_all

/-- Witness for C3 (amended): a non-runner at −30% is closed on the tick. -/
theorem maxTrailingLoss_nonrunner_witness :
    scalperEx.isRunner = false ∧
    ((0.7 : ℚ) - scalperEx.entryPriceSol) / scalperEx.entryPriceSol * 100 ≤
      CONFIG.monitor.maxTrailingLoss ∧
    (fastPriceDecision scalperEx 0.7 10000000).isSome = true :=
  ⟨rfl,
   by norm_num [scalperEx, runnerEx, posFiller, CONFIG.monitor.maxTrailingLoss],
   maxTrailingLoss_nonrunner scalperEx 0.7 10000000 rfl
     (by norm_num [scalperEx, runnerEx, posFiller, CONFIG.monitor.maxTrailingLoss])⟩

/-- The price bookkeeping never touches the entry's state flag. -/
theorem trackPrice_state (w : WatchedToken) (pr now : ℚ) :
    (trackPrice w pr now).state = w.state := by
  simp only [trackPrice]
  split_ifs <;> rfl

/-- The price bookkeeping never touches the dip-detected flag. -/
theorem trackPrice_dipDetected (w : WatchedToken) (pr now : ℚ) :
    (trackPrice w pr now).dipDetected = w.dipDetected := by
  simp only [trackPrice]
  split_ifs <;> rfl

/-- Watching-phase step: a retracement between the minimum and maximum dip
thresholds moves a non-expired `watching` entry to `waiting_rebound` with
`dipDetected` set, keeping it in the watchlist. -/
theorem checkEntry_dip (w : WatchedToken) (now pr : ℚ) (cr : Option ℚ)
    (hstate : w.state = .watching)
    (hage : now - w.addedAt ≤ CONFIG.dipBuyer.maxWatchDuration)
    (hpr : ¬ (pr = 0))
    (hdipmin : CONFIG.dipBuyer.minDipPercent ≤ (trackPrice w pr now).dipPercent)
    (hdipmax : ¬ (CONFIG.dipBuyer.maxDipPercent ≤ (trackPrice w pr now).dipPercent)) :
    (checkEntry w now (some pr) cr).1.state = .waiting_rebound ∧
    (checkEntry w now (some pr) cr).1.dipDetected = true ∧
    (checkEntry w now (some pr) cr).2 = .kept := by
  have h1 : ¬ (CONFIG.dipBuyer.maxWatchDuration < now - w.addedAt) := not_lt.mpr hage
  have hst : (trackPrice w pr now).state = WatchState.watching := by
    rw [trackPrice_state]; exact hstate
  simp [checkEntry, h1, hpr, hst, hdipmin, hdipmax]

/-- Waiting-rebound step: a rebound from the recorded low clearing the
threshold, re-confirmed by the second read, yields exactly one buy signal. -/
theorem checkEntry_rebound (w : WatchedToken) (now pr cp : ℚ)
    (hstate : w.state = .waiting_rebound)
    (hage : now - w.addedAt ≤ CONFIG.dipBuyer.maxWatchDuration)
    (hpr : ¬ (pr = 0))
    (hdipmax : ¬ (CONFIG.dipBuyer.maxDipPercent ≤ (trackPrice w pr now).dipPercent))
    (hreb : CONFIG.dipBuyer.reboundConfirmPercent ≤
      (pr - (trackPrice w pr now).lowestSinceHigh) /
        (trackPrice w pr now).lowestSinceHigh * 100)
    (hcp : ¬ (cp ≤ (trackPrice w pr now).lowestSinceHigh))
    (hconf : ¬ ((cp - (trackPrice w pr now).lowestSinceHigh) /
        (trackPrice w pr now).lowestSinceHigh * 100 <
      CONFIG.dipBuyer.reboundConfirmPercent)) :
    (checkEntry w now (some pr) (some cp)).1.state = .buy_signal ∧
    (checkEntry w now (some pr) (some cp)).2 = .bought := by
  have h1 : ¬ (CONFIG.dipBuyer.maxWatchDuration < now - w.addedAt) := not_lt.mpr hage
  have hst : (trackPrice w pr now).state = WatchState.waiting_rebound := by
    rw [trackPrice_state]; exact hstate
  simp [checkEntry, h1, hpr, hst, hdipmax, hreb, hcp, hconf]

/-- C8: a `watching` entry whose retracement from the recorded high reaches
6% (at or above the 5% minimum dip, below the 35% maximum) is moved by the
watchlist check to `waiting_rebound` with the dip recorded (`dipDetected`
flag — the `dip_detected` stage is instantaneous); a subsequent 3% rise from
the recorded low (at or above the 2% threshold) that the confirmation
re-read also clears yields a `buy_signal`: the buy callback is invoked
exactly once and the entry leaves the watchlist (`WatchOutcome.bought`). -/
theorem watchlist_dip_rebound_buy :
    (∀ (w : WatchedToken) (now pr : ℚ) (cr : Option ℚ),
      w.state = .watching →
      now - w.addedAt ≤ CONFIG.dipBuyer.maxWatchDuration →
      ¬ (pr = 0) →
      CONFIG.dipBuyer.minDipPercent ≤ (trackPrice w pr now).dipPercent →
      ¬ (CONFIG.dipBuyer.maxDipPercent ≤ (trackPrice w pr now).dipPercent) →
      (checkEntry w now (some pr) cr).1.state = .waiting_rebound ∧
      (checkEntry w now (some pr) cr).1.dipDetected = true ∧
      (checkEntry w now (some pr) cr).2 = .kept) ∧
    (∀ (w : WatchedToken) (now pr cp : ℚ),
      w.state = .waiting_rebound →
      now - w.addedAt ≤ CONFIG.dipBuyer.maxWatchDuration →
      ¬ (pr = 0) →
      ¬ (CONFIG.dipBuyer.maxDipPercent ≤ (trackPrice w pr now).dipPercent) →
      CONFIG.dipBuyer.reboundConfirmPercent ≤
        (pr - (trackPrice w pr now).lowestSinceHigh) /
          (trackPrice w pr now).lowestSinceHigh * 100 →
      ¬ (cp ≤ (trackPrice w pr now).lowestSinceHigh) →
      ¬ ((cp - (trackPrice w pr now).lowestSinceHigh) /
          (trackPrice w pr now).lowestSinceHigh * 100 <
        CONFIG.dipBuyer.reboundConfirmPercent) →
      (checkEntry w now (some pr) (some cp)).1.state = .buy_signal ∧
      (checkEntry w now (some pr) (some cp)).2 = .bought) :=
  ⟨fun w now pr cr h1 h2 h3 h4 h5 => checkEntry_dip w now pr cr h1 h2 h3 h4 h5,
   fun w now pr cp h1 h2 h3 h4 h5 h6 h7 =>
     checkEntry_rebound w now pr cp h1 h2 h3 h4 h5 h6 h7⟩

/-- Witness for C8: price 100 → 94 is a 6% dip moving the entry to
`waiting_rebound`; price 96.82 is a 3% rise from the low 94 and the
confirmation read at 96.82 clears the 2% threshold, so the entry yields
exactly one buy signal. -/
theorem watchlist_dip_rebound_buy_witness :
    ((checkEntry watchEx 10 (some 94) none).1.state = .waiting_rebound ∧
     (checkEntry watchEx 10 (some 94) none).1.dipDetected = true ∧
     (checkEntry watchEx 10 (some 94) none).2 = .kept) ∧
    ((checkEntry watchRebEx 20 (some 96.82) (some 96.82)).1.state = .buy_signal ∧
     (checkEntry watchRebEx 20 (some 96.82) (some 96.82)).2 = .bought) :=
  ⟨watchlist_dip_rebound_buy.1 watchEx 10 94 none rfl
    (by norm_num [watchEx, CONFIG.dipBuyer.maxWatchDuration])
    (by norm_num)
    (by norm_num [trackPrice, watchEx, CONFIG.dipBuyer.minDipPercent])
    (by norm_num [trackPrice, watchEx, CONFIG.dipBuyer.maxDipPercent]),
   watchlist_dip_rebound_buy.2 watchRebEx 20 96.82 96.82 rfl
    (by norm_num [watchRebEx, watchEx, CONFIG.dipBuyer.maxWatchDuration])
    (by norm_num)
    (by norm_num [trackPrice, watchRebEx, watchEx, CONFIG.dipBuyer.maxDipPercent])
    (by norm_num [trackPrice, watchRebEx, watchEx, CONFIG.dipBuyer.reboundConfirmPercent])
    (by norm_num [trackPrice, watchRebEx, watchEx])
    (by norm_num [trackPrice, watchRebEx, watchEx, CONFIG.dipBuyer.reboundConfirmPercent])⟩

/-- If dropping `n` exposes head `x`, taking `n+1` appends exactly `x`. -/
theorem take_succ_of_drop {α : Type} (x : α) :
    ∀ (l : List α) (n : Nat) (t : List α),
    l.drop n = x :: t → l.take (n + 1) = l.take n ++ [x] := by
  intro l
  induction l with
  | nil => intro n t h; simp at h
  | cons a l ih =>
      intro n t h
      cases n with
      | zero =>
          injection h with h1 h2
          subst h1
          rfl
      | succ n =>
          have : l.take (n + 1) = l.take n ++ [x] := ih n t h
          show a :: l.take (n + 1) = a :: l.take n ++ [x]
          rw [this]
          rfl

/-- If dropping `n` exposes head `x` and tail `t`, dropping `n+1` gives `t`. -/
theorem drop_succ_of_drop {α : Type} (x : α) :
    ∀ (l : List α) (n : Nat) (t : List α),
    l.drop n = x :: t → l.drop (n + 1) = t := by
  intro l
  induction l with
  | nil => intro n t h; simp at h
  | cons a l ih =>
      intro n t h
      cases n with
      | zero => injection h
      | succ n => exact ih n t h

/-- `partialSell` never touches the position's identity, entry amount, runner
flag, P&L percent, or ladder index. -/
theorem partialSellStep_pos_frame (p : Position) (s : BotState) (pct : ℚ)
    (res : Option ℚ) :
    (partialSellStep p s pct res).1.pnlPercent = p.pnlPercent ∧
    (partialSellStep p s pct res).1.id = p.id ∧
    (partialSellStep p s pct res).1.entryAmountSol = p.entryAmountSol ∧
    (partialSellStep p s pct res).1.isRunner = p.isRunner ∧
    (partialSellStep p s pct res).1.takeProfitStage = p.takeProfitStage := by
  cases res <;> simp [partialSellStep]

/-- `partialSell` leaves total capital, the open set and the daily counters
alone; it credits exactly the received SOL to available capital. -/
theorem partialSellStep_state_frame (p : Position) (s : BotState) (pct : ℚ)
    (res : Option ℚ) :
    (partialSellStep p s pct res).2.totalCapitalSol = s.totalCapitalSol ∧
    (partialSellStep p s pct res).2.openPositions = s.openPositions ∧
    (partialSellStep p s pct res).2.availableCapitalSol
      = s.availableCapitalSol + sellRecv res ∧
    (partialSellStep p s pct res).2.dailyTradeCount = s.dailyTradeCount ∧
    (partialSellStep p s pct res).2.isPaused = s.isPaused := by
  cases res <;> simp [partialSellStep, sellRecv]

/-- `partialSell` releases exactly `sellRel` committed capital. -/
theorem partialSellStep_committed (p : Position) (s : BotState) (pct : ℚ)
    (res : Option ℚ) :
    (partialSellStep p s pct res).1.entryAmountSol *
        ((partialSellStep p s pct res).1.remainingPercent / 100)
      = p.entryAmountSol * (p.remainingPercent / 100)
        - sellRel res p.entryAmountSol pct := by
  cases res
  · simp [partialSellStep, sellRel]
  · simp only [partialSellStep, sellRel]
    ring

/-- Unfolding of the take-profit loop at a firing stage. -/
theorem tpGo_cons_fire (results : List (Option ℚ)) (s : BotState) (p : Position)
    (trig sell : ℚ) (rest : List (ℚ × ℚ)) (i : Nat)
    (hx : trig * 100 ≤ p.pnlPercent) :
    tpGo results s p ((trig, sell) :: rest) i
      = { tpGo results (partialSellStep p s (sell * 100) (results.getD i none)).2
            { (partialSellStep p s (sell * 100) (results.getD i none)).1 with
              takeProfitStage := i + 1 } rest (i + 1) with
          recv := sellRecv (results.getD i none)
            + (tpGo results (partialSellStep p s (sell * 100) (results.getD i none)).2
                { (partialSellStep p s (sell * 100) (results.getD i none)).1 with
                  takeProfitStage := i + 1 } rest (i + 1)).recv
          rel := sellRel (results.getD i none) p.entryAmountSol (sell * 100)
            + (tpGo results (partialSellStep p s (sell * 100) (results.getD i none)).2
                { (partialSellStep p s (sell * 100) (results.getD i none)).1 with
                  takeProfitStage := i + 1 } rest (i + 1)).rel
          fires := (tpGo results (partialSellStep p s (sell * 100) (results.getD i none)).2
                { (partialSellStep p s (sell * 100) (results.getD i none)).1 with
                  takeProfitStage := i + 1 } rest (i + 1)).fires + 1 } := by
  simp only [tpGo, if_pos hx]

/-- Unfolding of the take-profit loop at a non-firing stage. -/
theorem tpGo_cons_skip (results : List (Option ℚ)) (s : BotState) (p : Position)
    (trig sell : ℚ) (rest : List (ℚ × ℚ)) (i : Nat)
    (hx : ¬ (trig * 100 ≤ p.pnlPercent)) :
    tpGo results s p ((trig, sell) :: rest) i = tpGo results s p rest (i + 1) := by
  simp only [tpGo, if_neg hx]

/-- A take-profit loop pass over stages none of which trigger is a no-op. -/
theorem tpGo_noFire (results : List (Option ℚ)) :
    ∀ (rest : List (ℚ × ℚ)) (i : Nat) (s : BotState) (p : Position),
    (∀ x ∈ rest, p.pnlPercent < x.1 * 100) →
    tpGo results s p rest i = ⟨s, p, 0, 0, 0⟩ := by
  intro rest
  induction rest with
  | nil => intro i s p _; rfl
  | cons x rest ih =>
      intro i s p h
      obtain ⟨trig, sell⟩ := x
      have hx : p.pnlPercent < trig * 100 := by
        simpa using h (trig, sell) (List.mem_cons_self _ _)
      rw [tpGo_cons_skip results s p trig sell rest i (not_le.mpr hx)]
      exact ih (i + 1) s p (fun y hy => h y (List.mem_cons_of_mem _ hy))

/-- Frame facts of one take-profit loop pass: total capital and the open list
are untouched, available capital grows by exactly the received SOL, the
position keeps its identity, entry amount, runner flag and P&L percent, and
its committed capital shrinks by exactly the released amount. -/
theorem tpGo_spec (results : List (Option ℚ)) :
    ∀ (rest : List (ℚ × ℚ)) (i : Nat) (s : BotState) (p : Position),
    (tpGo results s p rest i).s.totalCapitalSol = s.totalCapitalSol ∧
    (tpGo results s p rest i).s.openPositions = s.openPositions ∧
    (tpGo results s p rest i).s.availableCapitalSol
      = s.availableCapitalSol + (tpGo results s p rest i).recv ∧
    (tpGo results s p rest i).p.id = p.id ∧
    (tpGo results s p rest i).p.entryAmountSol = p.entryAmountSol ∧
    (tpGo results s p rest i).p.isRunner = p.isRunner ∧
    (tpGo results s p rest i).p.pnlPercent = p.pnlPercent ∧
    (tpGo results s p rest i).p.entryAmountSol *
        ((tpGo results s p rest i).p.remainingPercent / 100)
      = p.entryAmountSol * (p.remainingPercent / 100) - (tpGo results s p rest i).rel := by
  intro rest
  induction rest with
  | nil =>
      intro i s p
      refine ⟨rfl, rfl, ?_, rfl, rfl, rfl, rfl, ?_⟩
      · show s.availableCapitalSol = s.availableCapitalSol + (0 : ℚ)
        ring
      · show p.entryAmountSol * (p.remainingPercent / 100)
          = p.entryAmountSol * (p.remainingPercent / 100) - (0 : ℚ)
        ring
  | cons x rest ih =>
      intro i s p
      obtain ⟨trig, sell⟩ := x
      by_cases hx : trig * 100 ≤ p.pnlPercent
      · rw [tpGo_cons_fire results s p trig sell rest i hx]
        have hps := partialSellStep_pos_frame p s (sell * 100) (results.getD i none)
        have hss := partialSellStep_state_frame p s (sell * 100) (results.getD i none)
        have hcc := partialSellStep_committed p s (sell * 100) (results.getD i none)
        obtain ⟨o1, o2, o3, o4, o5, o6, o7, o8⟩ :=
          ih (i + 1) (partialSellStep p s (sell * 100) (results.getD i none)).2
            { (partialSellStep p s (sell * 100) (results.getD i none)).1 with
              takeProfitStage := i + 1 }
        dsimp only at o1 o2 o3 o4 o5 o6 o7 o8 ⊢
        refine ⟨o1.trans hss.1, o2.trans hss.2.1, ?_, o4.trans hps.2.1,
          o5.trans hps.2.2.1, o6.trans hps.2.2.2.1, o7.trans hps.1, ?_⟩
        · rw [o3, hss.2.2.1]
          ring
        · rw [o8, hcc]
          ring
      · rw [tpGo_cons_skip results s p trig sell rest i hx]
        exact ih (i + 1) s p

/-- After one take-profit pass, every ladder stage at or beyond the final
ladder index fails its trigger at the position's (unchanged) P&L: the pass
visited and rejected them (or fired them and moved past). -/
theorem tpGo_examined (results : List (Option ℚ)) (L : List (ℚ × ℚ)) :
    ∀ (rest : List (ℚ × ℚ)) (i : Nat) (s : BotState) (p : Position),
    rest = L.drop i →
    p.takeProfitStage ≤ i →
    (∀ x ∈ (L.drop p.takeProfitStage).take (i - p.takeProfitStage),
        p.pnlPercent < x.1 * 100) →
    ∀ x ∈ L.drop (tpGo results s p rest i).p.takeProfitStage,
      p.pnlPercent < x.1 * 100 := by
  intro rest
  induction rest with
  | nil =>
      intro i s p hrest hstage hH x hx
      have hx' : x ∈ L.drop p.takeProfitStage := hx
      have hsplit := List.take_append_drop (i - p.takeProfitStage) (L.drop p.takeProfitStage)
      have hdd : (L.drop p.takeProfitStage).drop (i - p.takeProfitStage) = L.drop i := by
        rw [List.drop_drop]
        congr 1
        omega
      rw [← hsplit] at hx'
      rcases List.mem_append.mp hx' with hmem | hmem
      · exact hH x hmem
      · rw [hdd, ← hrest] at hmem
        exact absurd hmem (List.not_mem_nil x)
  | cons hd rest ih =>
      intro i s p hrest hstage hH
      obtain ⟨trig, sell⟩ := hd
      have hdrop1 : L.drop (i + 1) = rest :=
        drop_succ_of_drop (trig, sell) L i rest hrest.symm
      by_cases hx : trig * 100 ≤ p.pnlPercent
      · rw [tpGo_cons_fire results s p trig sell rest i hx]
        intro x hxm
        have hps := partialSellStep_pos_frame p s (sell * 100) (results.getD i none)
        have hih := ih (i + 1) (partialSellStep p s (sell * 100) (results.getD i none)).2
          { (partialSellStep p s (sell * 100) (results.getD i none)).1 with
            takeProfitStage := i + 1 }
          hdrop1.symm (Nat.le_refl _)
          (fun y hy => by
            rw [show ({ (partialSellStep p s (sell * 100) (results.getD i none)).1 with
                  takeProfitStage := i + 1 } : Position).takeProfitStage = i + 1 from rfl,
              Nat.sub_self, List.take_zero] at hy
            exact absurd hy (List.not_mem_nil y))
        have hres := hih x hxm
        rw [show ({ (partialSellStep p s (sell * 100) (results.getD i none)).1 with
              takeProfitStage := i + 1 } : Position).pnlPercent
            = (partialSellStep p s (sell * 100) (results.getD i none)).1.pnlPercent from rfl,
          hps.1] at hres
        exact hres
      · rw [tpGo_cons_skip results s p trig sell rest i hx]
        apply ih (i + 1) s p hdrop1.symm (Nat.le_succ_of_le hstage)
        intro y hy
        have hsub : i + 1 - p.takeProfitStage = (i - p.takeProfitStage) + 1 := by omega
        rw [hsub] at hy
        have hdd : (L.drop p.takeProfitStage).drop (i - p.takeProfitStage) = L.drop i := by
          rw [List.drop_drop]
          congr 1
          omega
        have htake := take_succ_of_drop (trig, sell) (L.drop p.takeProfitStage)
          (i - p.takeProfitStage) rest (by rw [hdd, ← hrest])
        rw [htake] at hy
        rcases List.mem_append.mp hy with hm | hm
        · exact hH y hm
        · have hyx : y = (trig, sell) := by simpa using hm
          subst hyx
          simpa using not_le.mp hx

/-- C7: re-invoking the take-profit loop (of `handleScalp` or `handleRunner`)
on a position whose P&L is unchanged since the previous invocation is a
no-op: it does not advance `takeProfitStage`, triggers no `executeSell`
attempt (zero fires, so no duplicate partial sell), and leaves position and
ledger exactly as the first invocation left them — whatever the executor
outcomes `res1`, `res2` were. -/
theorem tp_ladder_idempotent (s : BotState) (p : Position)
    (res1 res2 : List (Option ℚ)) :
    runTPPos (runTPPos s p res1).s (runTPPos s p res1).p res2
      = ⟨(runTPPos s p res1).s, (runTPPos s p res1).p, 0, 0, 0⟩ := by
  have hspec := tpGo_spec res1 ((ladderFor p).drop p.takeProfitStage)
    p.takeProfitStage s p
  have hpnl : (runTPPos s p res1).p.pnlPercent = p.pnlPercent :=
    hspec.2.2.2.2.2.2.1
  have hrunflag : (runTPPos s p res1).p.isRunner = p.isRunner :=
    hspec.2.2.2.2.2.1
  have hlad : ladderFor (runTPPos s p res1).p = ladderFor p := by
    unfold ladderFor
    rw [hrunflag]
  have hex := tpGo_examined res1 (ladderFor p) ((ladderFor p).drop p.takeProfitStage)
    p.takeProfitStage s p rfl (Nat.le_refl _)
    (fun y hy => by
      rw [Nat.sub_self, List.take_zero] at hy
      exact absurd hy (List.not_mem_nil y))
  show tpGo res2 (runTPPos s p res1).s (runTPPos s p res1).p
      ((ladderFor (runTPPos s p res1).p).drop (runTPPos s p res1).p.takeProfitStage)
      (runTPPos s p res1).p.takeProfitStage = _
  rw [hlad]
  apply tpGo_noFire
  intro x hx
  rw [hpnl]
  exact hex x hx

/-- C2 counterexample: `closePosition` ignores the `executeSell` outcome —
on failure (`none`) the position is still marked closed and removed from the
open set, the daily trade counter is incremented and the full entry amount is
booked as a loss, contradicting the claim that a failed close is aborted with
no state change. -/
theorem closePosition_failure_counterexample :
    oneOpenEx.openPositions.length = 1 ∧
    (applyOp oneOpenEx (Op.closePos 1 none)).openPositions = [] ∧
    (applyOp oneOpenEx (Op.closePos 1 none)).dailyTradeCount = 1 ∧
    (applyOp oneOpenEx (Op.closePos 1 none)).dailyPnlSol = -0.1 := by
  have hne : ¬ (PosStatus.opn = PosStatus.closed) := by decide
  norm_num [applyOp, oneOpenEx, pos1Ex, posFiller, mkInit, List.find?,
    List.filter, CONFIG.risk.initialCapital, if_neg hne]

/-- C2 amended: on `executeSell` failure a *partial* exit is aborted — the
position keeps its status, remaining fraction and open-set membership and the
ledger's capital and daily counters are unchanged — except that the
take-profit ladder index still advances past the failed trigger (so that
trigger is not re-attempted); a *full* close via `closePosition` is NOT
aborted: the position is closed and removed with zero proceeds and the whole
entry amount booked as a loss.  (A later tick can therefore re-attempt
nothing: the close already happened.) -/
theorem sell_failure_handling :
    (∀ (p : Position) (s : BotState) (pct : ℚ),
      partialSellStep p s pct none = (p, s)) ∧
    (∀ (results : List (Option ℚ)) (s : BotState) (p : Position)
        (trig sell : ℚ) (i : Nat),
      trig * 100 ≤ p.pnlPercent →
      results.getD i none = none →
      tpGo results s p [(trig, sell)] i
        = ⟨s, { p with takeProfitStage := i + 1 }, 0, 0, 1⟩) ∧
    (∀ (s : BotState) (pid : Nat) (p : Position),
      s.openPositions.find? (fun q => q.id == pid) = some p →
      ¬ (p.status = PosStatus.closed) →
      (applyOp s (Op.closePos pid none)).openPositions
          = s.openPositions.filter (fun q => q.id != pid) ∧
      (applyOp s (Op.closePos pid none)).dailyTradeCount = s.dailyTradeCount + 1 ∧
      (applyOp s (Op.closePos pid none)).availableCapitalSol = s.availableCapitalSol ∧
      (applyOp s (Op.closePos pid none)).dailyPnlSol
          = s.dailyPnlSol - p.entryAmountSol) := by
  refine ⟨fun p s pct => rfl, ?_, ?_⟩
  · intro results s p trig sell i hx hres
    rw [tpGo_cons_fire results s p trig sell [] i hx, hres]
    simp [tpGo, partialSellStep, sellRecv, sellRel]
  · intro s pid p hfind hstatus
    simp [applyOp, hfind, if_neg hstatus, sub_eq_add_neg]

/-- Witness for C2 (amended): a failed partial sell at a fired trigger leaves
ledger and position untouched apart from the advanced ladder index; a failed
close still empties the book. -/
theorem sell_failure_handling_witness :
    (partialSellStep pos1Ex oneOpenEx 30 none = (pos1Ex, oneOpenEx)) ∧
    (tpGo [none] oneOpenEx { pos1Ex with pnlPercent := 25 } [(0.20, 0.30)] 0
      = ⟨oneOpenEx, { pos1Ex with pnlPercent := 25, takeProfitStage := 1 }, 0, 0, 1⟩) ∧
    ((applyOp oneOpenEx (Op.closePos 1 none)).openPositions
        = oneOpenEx.openPositions.filter (fun q => q.id != 1) ∧
      (applyOp oneOpenEx (Op.closePos 1 none)).dailyTradeCount
        = oneOpenEx.dailyTradeCount + 1 ∧
      (applyOp oneOpenEx (Op.closePos 1 none)).availableCapitalSol
        = oneOpenEx.availableCapitalSol ∧
      (applyOp oneOpenEx (Op.closePos 1 none)).dailyPnlSol
        = oneOpenEx.dailyPnlSol - pos1Ex.entryAmountSol) := by
  refine ⟨sell_failure_handling.1 pos1Ex oneOpenEx 30, ?_, ?_⟩
  · have h := sell_failure_handling.2.1 [none] oneOpenEx
      { pos1Ex with pnlPercent := 25 } 0.20 0.30 0
      (by norm_num [pos1Ex, posFiller]) (by simp)
    simpa using h
  · exact sell_failure_handling.2.2 oneOpenEx 1 pos1Ex
      (by simp [oneOpenEx, pos1Ex, posFiller, mkInit, List.find?])
      (by simp [pos1Ex, posFiller])

/-- `ladderFor` only depends on the runner flag. -/
theorem ladderFor_eq (p : Position) : ladderFor p = ladderOf p.isRunner := rfl

/-- Every scalp-ladder stage sells a nonnegative fraction. -/
theorem monitor_ladder_nonneg : ∀ x ∈ CONFIG.monitor.secureProfits, 0 ≤ x.2 := by
  intro x hx
  simp [CONFIG.monitor.secureProfits] at hx
  rcases hx with h | h <;> rw [h] <;> norm_num

/-- Every runner-ladder stage sells a nonnegative fraction. -/
theorem runner_ladder_nonneg : ∀ x ∈ CONFIG.runner.secureProfits, 0 ≤ x.2 := by
  intro x hx
  simp [CONFIG.runner.secureProfits] at hx
  rcases hx with h | h | h <;> rw [h] <;> norm_num

/-- Either mode's ladder sells nonnegative fractions. -/
theorem ladderOf_nonneg (r : Bool) : ∀ x ∈ ladderOf r, 0 ≤ x.2 := by
  cases r
  · intro x hx
    simp [ladderOf] at hx
    exact monitor_ladder_nonneg x hx
  · intro x hx
    simp [ladderOf] at hx
    exact runner_ladder_nonneg x hx

/-- A ladder of nonnegative sells has a nonnegative mass. -/
theorem ladderSum_nonneg (L : List (ℚ × ℚ)) (h : ∀ x ∈ L, 0 ≤ x.2) :
    0 ≤ ladderSum L := by
  induction L with
  | nil => exact le_refl 0
  | cons x rest ih =>
      have hx : (0 : ℚ) ≤ x.2 * 100 :=
        mul_nonneg (h x (List.mem_cons_self _ _)) (by norm_num)
      have hr : 0 ≤ ladderSum rest := ih (fun y hy => h y (List.mem_cons_of_mem _ hy))
      show (0 : ℚ) ≤ x.2 * 100 + ladderSum rest
      linarith

/-- Dropping one more stage never increases the ladder mass. -/
theorem ladderSum_drop_succ_le (L : List (ℚ × ℚ)) (h : ∀ x ∈ L, 0 ≤ x.2) (i : Nat) :
    ladderSum (L.drop (i + 1)) ≤ ladderSum (L.drop i) := by
  cases hLi : L.drop i with
  | nil =>
      have hnil : L.drop (i + 1) = [] := by
        have hd : (L.drop i).drop 1 = L.drop (i + 1) := by
          rw [List.drop_drop, Nat.add_comm]
        rw [← hd, hLi]
        rfl
      rw [hnil]
  | cons x t =>
      have hd : L.drop (i + 1) = t := drop_succ_of_drop x L i t hLi
      have hx : (0 : ℚ) ≤ x.2 * 100 :=
        mul_nonneg
          (h x (List.drop_subset i L (by rw [hLi]; exact List.mem_cons_self x t)))
          (by norm_num)
      rw [hd]
      show ladderSum t ≤ x.2 * 100 + ladderSum t
      linarith

/-- `tpBound` is nonnegative. -/
theorem tpBound_nonneg (r : Bool) (i : Nat) : 0 ≤ tpBound r i := by
  have hm := ladderSum_nonneg (CONFIG.monitor.secureProfits.drop i)
    (fun x hx => monitor_ladder_nonneg x (List.drop_subset i _ hx))
  have hr := ladderSum_nonneg (CONFIG.runner.secureProfits.drop i)
    (fun x hx => runner_ladder_nonneg x (List.drop_subset i _ hx))
  cases r <;> simp [tpBound] <;> linarith

/-- `tpBound` does not grow with the ladder index. -/
theorem tpBound_succ_le (r : Bool) (i : Nat) : tpBound r (i + 1) ≤ tpBound r i := by
  have hm := ladderSum_drop_succ_le CONFIG.monitor.secureProfits monitor_ladder_nonneg i
  have hr := ladderSum_drop_succ_le CONFIG.runner.secureProfits runner_ladder_nonneg i
  cases r <;> simp [tpBound] <;> linarith

/-- `tpBound` is antitone in the ladder index. -/
theorem tpBound_antitone (r : Bool) {j k : Nat} (hjk : j ≤ k) :
    tpBound r k ≤ tpBound r j := by
  induction hjk with
  | refl => exact le_refl _
  | step hk ih => exact le_trans (tpBound_succ_le r _) ih

/-- Promotion to runner mode only shrinks the worst-case future sell mass. -/
theorem tpBound_true_le (r : Bool) (i : Nat) : tpBound true i ≤ tpBound r i := by
  have hm := ladderSum_nonneg (CONFIG.monitor.secureProfits.drop i)
    (fun x hx => monitor_ladder_nonneg x (List.drop_subset i _ hx))
  cases r
  all_goals simp [tpBound]
  all_goals linarith

/-- At a newly opened position the worst-case future sell mass is at most
the full 100%. -/
theorem tpBound_zero_le (r : Bool) : tpBound r 0 ≤ 100 := by
  cases r <;>
    norm_num [tpBound, ladderSum, CONFIG.monitor.secureProfits,
      CONFIG.runner.secureProfits]

/-- Firing ladder stage `i` consumes its sell mass. -/
theorem tpBound_fire (r : Bool) (i : Nat) (trig sell : ℚ) (rest : List (ℚ × ℚ))
    (h : (ladderOf r).drop i = (trig, sell) :: rest) :
    sell * 100 + tpBound r (i + 1) ≤ tpBound r i := by
  cases r
  · have hmon : CONFIG.monitor.secureProfits.drop i = (trig, sell) :: rest := by
      simpa [ladderOf] using h
    have hstep : ladderSum (CONFIG.monitor.secureProfits.drop i)
        = sell * 100 + ladderSum (CONFIG.monitor.secureProfits.drop (i + 1)) := by
      rw [hmon, drop_succ_of_drop (trig, sell) _ i rest hmon]
      rfl
    have hrun := ladderSum_drop_succ_le CONFIG.runner.secureProfits runner_ladder_nonneg i
    simp [tpBound]
    linarith
  · have hrunl : CONFIG.runner.secureProfits.drop i = (trig, sell) :: rest := by
      simpa [ladderOf] using h
    have hstep : ladderSum (CONFIG.runner.secureProfits.drop i)
        = sell * 100 + ladderSum (CONFIG.runner.secureProfits.drop (i + 1)) := by
      rw [hrunl, drop_succ_of_drop (trig, sell) _ i rest hrunl]
      rfl
    simp [tpBound]
    linarith

/-- `partialSell` decrements the remaining fraction by `sellDec`. -/
theorem partialSellStep_remaining (p : Position) (s : BotState) (pct : ℚ)
    (res : Option ℚ) :
    (partialSellStep p s pct res).1.remainingPercent
      = p.remainingPercent - sellDec res pct := by
  cases res <;> simp [partialSellStep, sellDec]

/-- `sellDec` lies between 0 and the requested percentage. -/
theorem sellDec_bounds (res : Option ℚ) (pct : ℚ) (h : 0 ≤ pct) :
    0 ≤ sellDec res pct ∧ sellDec res pct ≤ pct := by
  cases res <;> simp [sellDec, h]

/-- One take-profit pass keeps the remaining fraction above the worst-case
future sell mass and at most 100. -/
theorem tpGo_bounds (results : List (Option ℚ)) (r : Bool) :
    ∀ (rest : List (ℚ × ℚ)) (i : Nat) (s : BotState) (p : Position),
    p.isRunner = r →
    rest = (ladderOf r).drop i →
    p.takeProfitStage ≤ i →
    tpBound r p.takeProfitStage ≤ p.remainingPercent →
    p.remainingPercent ≤ 100 →
    tpBound r (tpGo results s p rest i).p.takeProfitStage
        ≤ (tpGo results s p rest i).p.remainingPercent ∧
    (tpGo results s p rest i).p.remainingPercent ≤ 100 := by
  intro rest
  induction rest with
  | nil =>
      intro i s p _ _ _ hlb hub
      exact ⟨hlb, hub⟩
  | cons hd rest ih =>
      intro i s p hr hrest hstage hlb hub
      obtain ⟨trig, sell⟩ := hd
      have hLi : (ladderOf r).drop i = (trig, sell) :: rest := hrest.symm
      have hdrop1 : (ladderOf r).drop (i + 1) = rest :=
        drop_succ_of_drop (trig, sell) _ i rest hLi
      have hsell : (0 : ℚ) ≤ sell := by
        have hmem : (trig, sell) ∈ ladderOf r :=
          List.drop_subset i _ (by rw [hLi]; exact List.mem_cons_self _ _)
        simpa using ladderOf_nonneg r (trig, sell) hmem
      have hchain : tpBound r i ≤ tpBound r p.takeProfitStage :=
        tpBound_antitone r hstage
      by_cases hx : trig * 100 ≤ p.pnlPercent
      · rw [tpGo_cons_fire results s p trig sell rest i hx]
        have hrem := partialSellStep_remaining p s (sell * 100) (results.getD i none)
        have hdec := sellDec_bounds (results.getD i none) (sell * 100)
          (by linarith)
        have hfire := tpBound_fire r i trig sell rest hLi
        apply ih (i + 1)
        · show (partialSellStep p s (sell * 100) (results.getD i none)).1.isRunner = r
          rw [(partialSellStep_pos_frame p s (sell * 100) (results.getD i none)).2.2.2.1]
          exact hr
        · exact hdrop1.symm
        · exact Nat.le_refl _
        · show tpBound r (i + 1)
            ≤ (partialSellStep p s (sell * 100) (results.getD i none)).1.remainingPercent
          rw [hrem]
          linarith [hdec.2]
        · show (partialSellStep p s (sell * 100) (results.getD i none)).1.remainingPercent ≤ 100
          rw [hrem]
          linarith [hdec.1]
      · rw [tpGo_cons_skip results s p trig sell rest i hx]
        exact ih (i + 1) s p hr hdrop1.symm (Nat.le_succ_of_le hstage) hlb hub

/-- Membership after an in-place update: an untouched original element or the
replacement. -/
theorem mem_replaceFirst (l : List Position) (pid : Nat) (q x : Position)
    (hx : x ∈ replaceFirst l pid q) : x ∈ l ∨ x = q := by
  induction l with
  | nil => simp [replaceFirst] at hx
  | cons a l ih =>
      simp only [replaceFirst] at hx
      by_cases ha : a.id = pid
      · rw [if_pos ha] at hx
        rcases List.mem_cons.mp hx with h | h
        · right; exact h
        · left; exact List.mem_cons_of_mem _ h
      · rw [if_neg ha] at hx
        rcases List.mem_cons.mp hx with h | h
        · left; rw [h]; exact List.mem_cons_self _ _
        · rcases ih h with h2 | h2
          · left; exact List.mem_cons_of_mem _ h2
          · right; exact h2

/-- `PosOk` puts the remaining fraction inside `[0, 100]`. -/
theorem posOk_implies (p : Position) (h : PosOk p) :
    0 ≤ p.remainingPercent ∧ p.remainingPercent ≤ 100 :=
  ⟨le_trans (tpBound_nonneg _ _) h.1, h.2⟩

/-- Every engine event preserves `PosOk` for all open positions. -/
theorem applyOp_posOk (s : BotState) (op : Op)
    (hs : ∀ p ∈ s.openPositions, PosOk p) :
    ∀ p ∈ (applyOp s op).openPositions, PosOk p := by
  cases op with
  | openPos pid a pr tk e t =>
      by_cases hany : s.openPositions.any (fun q => q.id == pid)
      · intro p hp
        simp only [applyOp, if_pos hany] at hp
        exact hs p hp
      · intro p hp
        simp only [applyOp, if_neg hany] at hp
        rcases List.mem_append.mp hp with h | h
        · exact hs p h
        · have hpq : p = mkPosition pid a pr tk e t := by simpa using h
          rw [hpq]
          exact ⟨tpBound_zero_le e, le_refl _⟩
  | updatePrice pid price =>
      intro p hp
      by_cases hz : price = 0
      · simp only [applyOp, if_pos hz] at hp
        exact hs p hp
      · cases hf : s.openPositions.find? (fun q => q.id == pid) with
        | none =>
            simp only [applyOp, if_neg hz, hf] at hp
            exact hs p hp
        | some p0 =>
            by_cases hst : p0.status = PosStatus.closed
            · simp only [applyOp, if_neg hz, hf, if_pos hst] at hp
              exact hs p hp
            · simp only [applyOp, if_neg hz, hf, if_neg hst] at hp
              rcases mem_replaceFirst _ _ _ _ hp with h | h
              · exact hs p h
              · rw [h]
                exact hs p0 (List.mem_of_find?_eq_some hf)
  | promote pid =>
      intro p hp
      cases hf : s.openPositions.find? (fun q => q.id == pid) with
      | none =>
          simp only [applyOp, hf] at hp
          exact hs p hp
      | some p0 =>
          by_cases hst : p0.status = PosStatus.closed
          · simp only [applyOp, hf, if_pos hst] at hp
            exact hs p hp
          · simp only [applyOp, hf, if_neg hst] at hp
            rcases mem_replaceFirst _ _ _ _ hp with h | h
            · exact hs p h
            · rw [h]
              have h0 := hs p0 (List.mem_of_find?_eq_some hf)
              exact ⟨le_trans (tpBound_true_le p0.isRunner p0.takeProfitStage) h0.1,
                h0.2⟩
  | tpCheck pid results =>
      intro p hp
      cases hf : s.openPositions.find? (fun q => q.id == pid) with
      | none =>
          simp only [applyOp, hf] at hp
          exact hs p hp
      | some p0 =>
          by_cases hst : p0.status = PosStatus.closed
          · simp only [applyOp, hf, if_pos hst] at hp
            exact hs p hp
          · simp only [applyOp, hf, if_neg hst] at hp
            rcases mem_replaceFirst _ _ _ _ hp with h | h
            · exact hs p h
            · rw [h]
              have h0 := hs p0 (List.mem_of_find?_eq_some hf)
              have hb := tpGo_bounds results p0.isRunner
                ((ladderOf p0.isRunner).drop p0.takeProfitStage)
                p0.takeProfitStage s p0 rfl rfl (Nat.le_refl _) h0.1 h0.2
              have hflag := (tpGo_spec results
                ((ladderOf p0.isRunner).drop p0.takeProfitStage)
                p0.takeProfitStage s p0).2.2.2.2.2.1
              constructor
              · show tpBound (runTPPos s p0 results).p.isRunner
                    (runTPPos s p0 results).p.takeProfitStage
                    ≤ (runTPPos s p0 results).p.remainingPercent
                have : (runTPPos s p0 results).p.isRunner = p0.isRunner := hflag
                rw [this]
                exact hb.1
              · exact hb.2
  | closePos pid result =>
      intro p hp
      cases hf : s.openPositions.find? (fun q => q.id == pid) with
      | none =>
          simp only [applyOp, hf] at hp
          exact hs p hp
      | some p0 =>
          by_cases hst : p0.status = PosStatus.closed
          · simp only [applyOp, hf, if_pos hst] at hp
            exact hs p hp
          · simp only [applyOp, hf, if_neg hst] at hp
            exact hs p (List.mem_of_mem_filter hp)

/-- `PosOk` holds for all open positions along any event trace. -/
theorem run_posOk (ops : List Op) :
    ∀ (s : BotState), (∀ p ∈ s.openPositions, PosOk p) →
    ∀ p ∈ (run s ops).openPositions, PosOk p := by
  induction ops with
  | nil => intro s hs; exact hs
  | cons op ops ih =>
      intro s hs
      exact ih (applyOp s op) (applyOp_posOk s op hs)

/-- C9: a position opens with `remainingPercent = 100`, and along every
event trace from a fresh ledger the remaining fraction of every open
position stays within `[0, 100]` (it only changes through partial sells and
closes). -/
theorem remainingPercent_bounds :
    (∀ (pid : Nat) (a pr tk : ℚ) (e : Bool) (t : ℚ),
      (mkPosition pid a pr tk e t).remainingPercent = 100) ∧
    (∀ (balance : ℚ) (ops : List Op),
      ∀ p ∈ (run (mkInit balance) ops).openPositions,
        0 ≤ p.remainingPercent ∧ p.remainingPercent ≤ 100) := by
  constructor
  · intro pid a pr tk e t
    rfl
  · intro balance ops p hp
    refine posOk_implies p (run_posOk ops (mkInit balance) ?_ p hp)
    intro q hq
    simp [mkInit] at hq

/-- Witness for C9 on the concrete one-open-position trace. -/
theorem remainingPercent_bounds_witness :
    ((mkPosition 1 0.1 0.001 100 false 0).remainingPercent = 100) ∧
    (0 ≤ (mkPosition 1 0.1 0.001 100 false 0).remainingPercent ∧
      (mkPosition 1 0.1 0.001 100 false 0).remainingPercent ≤ 100) :=
  ⟨remainingPercent_bounds.1 1 0.1 0.001 100 false 0,
   remainingPercent_bounds.2 0.6 openOps (mkPosition 1 0.1 0.001 100 false 0)
     (by simp [run, openOps, applyOp, mkInit])⟩

/-- Committed capital of a book with one more position appended. -/
theorem committedCapital_append (l : List Position) (p : Position) :
    committedCapital (l ++ [p])
      = committedCapital l + p.entryAmountSol * (p.remainingPercent / 100) := by
  induction l with
  | nil =>
      show p.entryAmountSol * (p.remainingPercent / 100) + 0
        = 0 + p.entryAmountSol * (p.remainingPercent / 100)
      ring
  | cons a l ih =>
      show a.entryAmountSol * (a.remainingPercent / 100) + committedCapital (l ++ [p]) = _
      rw [ih]
      show _ = a.entryAmountSol * (a.remainingPercent / 100) + committedCapital l
        + p.entryAmountSol * (p.remainingPercent / 100)
      ring

/-- Committed capital after replacing the first position with a given id. -/
theorem committedCapital_replaceFirst (l : List Position) (pid : Nat)
    (p q : Position)
    (hf : l.find? (fun x => x.id == pid) = some p) :
    committedCapital (replaceFirst l pid q)
      = committedCapital l - p.entryAmountSol * (p.remainingPercent / 100)
        + q.entryAmountSol * (q.remainingPercent / 100) := by
  induction l with
  | nil => simp [List.find?] at hf
  | cons a l ih =>
      by_cases ha : a.id = pid
      · have hfa : (a :: l).find? (fun x => x.id == pid) = some a := by
          simp [List.find?, ha]
        rw [hfa] at hf
        injection hf with hpa
        subst hpa
        show committedCapital (if a.id = pid then q :: l else _) = _
        rw [if_pos ha]
        show q.entryAmountSol * (q.remainingPercent / 100) + committedCapital l = _
        show _ = a.entryAmountSol * (a.remainingPercent / 100) + committedCapital l
          - a.entryAmountSol * (a.remainingPercent / 100)
          + q.entryAmountSol * (q.remainingPercent / 100)
        ring
      · have hfl : l.find? (fun x => x.id == pid) = some p := by
          have hbeq : (a.id == pid) = false := by
            simp [ha]
          rw [List.find?, hbeq] at hf
          exact hf
        show committedCapital (if a.id = pid then _ else a :: replaceFirst l pid q) = _
        rw [if_neg ha]
        show a.entryAmountSol * (a.remainingPercent / 100)
            + committedCapital (replaceFirst l pid q) = _
        rw [ih hfl]
        show _ = a.entryAmountSol * (a.remainingPercent / 100) + committedCapital l
          - p.entryAmountSol * (p.remainingPercent / 100)
          + q.entryAmountSol * (q.remainingPercent / 100)
        ring

/-- With distinct ids, removing the found position subtracts exactly its
committed capital. -/
theorem committedCapital_filter (l : List Position) (pid : Nat) (p : Position)
    (hids : IdsOk l)
    (hf : l.find? (fun x => x.id == pid) = some p) :
    committedCapital (l.filter (fun x => x.id != pid))
      = committedCapital l - p.entryAmountSol * (p.remainingPercent / 100) := by
  induction l with
  | nil => simp [List.find?] at hf
  | cons a l ih =>
      have hids' : IdsOk l := by
        have := hids
        simp only [IdsOk, List.map_cons, List.nodup_cons] at this
        exact this.2
      by_cases ha : a.id = pid
      · have hfa : (a :: l).find? (fun x => x.id == pid) = some a := by
          simp [List.find?, ha]
        rw [hfa] at hf
        injection hf with hpa
        subst hpa
        have hrest : ∀ b ∈ l, b.id ≠ pid := by
          have hnodup := hids
          simp only [IdsOk, List.map_cons, List.nodup_cons] at hnodup
          intro b hb hbid
          apply hnodup.1
          have hin : b.id ∈ l.map (fun p => p.id) :=
            List.mem_map_of_mem (fun p => p.id) hb
          rwa [hbid, ← ha] at hin
        have hfilter : l.filter (fun x => x.id != pid) = l := by
          rw [List.filter_eq_self]
          intro b hb
          simpa using hrest b hb
        have hdrop : (a :: l).filter (fun x => x.id != pid)
            = l.filter (fun x => x.id != pid) := by
          have : ((fun x => x.id != pid) a) = false := by
            simp [ha]
          simp [List.filter, this]
        rw [hdrop, hfilter]
        show committedCapital l
          = a.entryAmountSol * (a.remainingPercent / 100) + committedCapital l
            - a.entryAmountSol * (a.remainingPercent / 100)
        ring
      · have hfl : l.find? (fun x => x.id == pid) = some p := by
          have hbeq : (a.id == pid) = false := by
            simp [ha]
          rw [List.find?, hbeq] at hf
          exact hf
        have hkeep : ((fun x => x.id != pid) a) = true := by
          simp [ha]
        have : (a :: l).filter (fun x => x.id != pid)
            = a :: l.filter (fun x => x.id != pid) := by
          simp [List.filter, hkeep]
        rw [this]
        show a.entryAmountSol * (a.remainingPercent / 100)
            + committedCapital (l.filter (fun x => x.id != pid)) = _
        rw [ih hids' hfl]
        show _ = a.entryAmountSol * (a.remainingPercent / 100) + committedCapital l
          - p.entryAmountSol * (p.remainingPercent / 100)
        ring

/-- In-place replacement with an id-preserving record keeps the id list. -/
theorem replaceFirst_map_id (l : List Position) (pid : Nat) (p q : Position)
    (hf : l.find? (fun x => x.id == pid) = some p) (hq : q.id = p.id) :
    (replaceFirst l pid q).map (fun x => x.id) = l.map (fun x => x.id) := by
  induction l with
  | nil => rfl
  | cons a l ih =>
      by_cases ha : a.id = pid
      · have hfa : (a :: l).find? (fun x => x.id == pid) = some a := by
          simp [List.find?, ha]
        rw [hfa] at hf
        injection hf with hpa
        subst hpa
        show ((if a.id = pid then q :: l else a :: replaceFirst l pid q)).map
            (fun x => x.id) = _
        rw [if_pos ha]
        show q.id :: l.map (fun x => x.id) = a.id :: l.map (fun x => x.id)
        rw [hq]
      · have hfl : l.find? (fun x => x.id == pid) = some p := by
          have hbeq : (a.id == pid) = false := by simp [ha]
          rw [List.find?, hbeq] at hf
          exact hf
        show ((if a.id = pid then q :: l else a :: replaceFirst l pid q)).map
            (fun x => x.id) = _
        rw [if_neg ha]
        show a.id :: (replaceFirst l pid q).map (fun x => x.id)
            = a.id :: l.map (fun x => x.id)
        rw [ih hfl]

/-- Filtering keeps distinct ids distinct. -/
theorem IdsOk_filter (l : List Position) (f : Position → Bool) (h : IdsOk l) :
    IdsOk (l.filter f) :=
  List.Nodup.sublist ((List.filter_sublist l).map (fun p => p.id)) h

/-- Each engine event moves the ledger gap by exactly its drift contribution
and keeps open-position ids distinct. -/
theorem applyOp_gap (s : BotState) (op : Op) (hids : IdsOk s.openPositions) :
    gap (applyOp s op) = gap s + driftOp s op ∧
    IdsOk (applyOp s op).openPositions := by
  cases op with
  | openPos pid a pr tk e t =>
      by_cases hany : s.openPositions.any (fun q => q.id == pid)
      · constructor
        · simp only [applyOp, if_pos hany, driftOp]
          ring
        · simpa [applyOp, hany] using hids
      · have hfresh : ∀ b ∈ s.openPositions, b.id ≠ pid := by
          intro b hb hbid
          exact hany (List.any_eq_true.mpr ⟨b, hb, by simp [hbid]⟩)
        constructor
        · simp only [applyOp, if_neg hany, driftOp, gap, committedCapital_append]
          have h1 : (mkPosition pid a pr tk e t).entryAmountSol = a := rfl
          have h2 : (mkPosition pid a pr tk e t).remainingPercent = 100 := rfl
          rw [h1, h2]
          have h100 : (100 : ℚ) / 100 = 1 := by norm_num
          rw [h100]
          ring
        · simp only [applyOp, if_neg hany]
          show IdsOk (s.openPositions ++ [mkPosition pid a pr tk e t])
          unfold IdsOk
          rw [List.map_append]
          refine List.nodup_append.mpr ⟨hids, by simp, ?_⟩
          intro x hx
          rcases List.mem_map.mp hx with ⟨b, hb, rfl⟩
          have hne : b.id ≠ pid := hfresh b hb
          simpa [mkPosition] using hne
  | updatePrice pid price =>
      by_cases hz : price = 0
      · constructor
        · simp only [applyOp, if_pos hz, driftOp]
          ring
        · simpa [applyOp, hz] using hids
      · cases hf : s.openPositions.find? (fun q => q.id == pid) with
        | none =>
            constructor
            · simp only [applyOp, if_neg hz, hf, driftOp]
              ring
            · simpa [applyOp, hz, hf] using hids
        | some p0 =>
            by_cases hst : p0.status = PosStatus.closed
            · constructor
              · simp only [applyOp, if_neg hz, hf, if_pos hst, driftOp]
                ring
              · simpa [applyOp, hz, hf, hst] using hids
            · constructor
              · have hcom := committedCapital_replaceFirst s.openPositions pid p0
                  (refreshPos p0 price) hf
                have h1 : (refreshPos p0 price).entryAmountSol = p0.entryAmountSol := rfl
                have h2 : (refreshPos p0 price).remainingPercent = p0.remainingPercent := rfl
                simp only [applyOp, if_neg hz, hf, if_neg hst, driftOp, gap]
                rw [hcom, h1, h2]
                ring
              · simp only [applyOp, if_neg hz, hf, if_neg hst]
                show IdsOk (replaceFirst s.openPositions pid (refreshPos p0 price))
                unfold IdsOk
                rw [replaceFirst_map_id s.openPositions pid p0 (refreshPos p0 price) hf rfl]
                exact hids
  | promote pid =>
      cases hf : s.openPositions.find? (fun q => q.id == pid) with
      | none =>
          constructor
          · simp only [applyOp, hf, driftOp]
            ring
          · simpa [applyOp, hf] using hids
      | some p0 =>
          by_cases hst : p0.status = PosStatus.closed
          · constructor
            · simp only [applyOp, hf, if_pos hst, driftOp]
              ring
            · simpa [applyOp, hf, hst] using hids
          · constructor
            · have hcom := committedCapital_replaceFirst s.openPositions pid p0
                { p0 with isRunner := true } hf
              have h1 : ({ p0 with isRunner := true } : Position).entryAmountSol
                  = p0.entryAmountSol := rfl
              have h2 : ({ p0 with isRunner := true } : Position).remainingPercent
                  = p0.remainingPercent := rfl
              simp only [applyOp, hf, if_neg hst, driftOp, gap]
              rw [hcom, h1, h2]
              ring
            · simp only [applyOp, hf, if_neg hst]
              show IdsOk (replaceFirst s.openPositions pid { p0 with isRunner := true })
              unfold IdsOk
              rw [replaceFirst_map_id s.openPositions pid p0
                { p0 with isRunner := true } hf rfl]
              exact hids
  | tpCheck pid results =>
      cases hf : s.openPositions.find? (fun q => q.id == pid) with
      | none =>
          constructor
          · simp only [applyOp, hf, driftOp]
            ring
          · simpa [applyOp, hf] using hids
      | some p0 =>
          by_cases hst : p0.status = PosStatus.closed
          · constructor
            · simp only [applyOp, hf, if_pos hst, driftOp]
              ring
            · simpa [applyOp, hf, hst] using hids
          · have hspec := tpGo_spec results
              ((ladderOf p0.isRunner).drop p0.takeProfitStage)
              p0.takeProfitStage s p0
            have h1 : (runTPPos s p0 results).s.totalCapitalSol
                = s.totalCapitalSol := hspec.1
            have h3 : (runTPPos s p0 results).s.availableCapitalSol
                = s.availableCapitalSol + (runTPPos s p0 results).recv :=
              hspec.2.2.1
            have h4 : (runTPPos s p0 results).p.id = p0.id := hspec.2.2.2.1
            have h8 : (runTPPos s p0 results).p.entryAmountSol *
                  ((runTPPos s p0 results).p.remainingPercent / 100)
                = p0.entryAmountSol * (p0.remainingPercent / 100)
                  - (runTPPos s p0 results).rel := hspec.2.2.2.2.2.2.2
            constructor
            · have hcom := committedCapital_replaceFirst s.openPositions pid p0
                (runTPPos s p0 results).p hf
              simp only [applyOp, hf, if_neg hst, driftOp, gap]
              rw [hcom, h1, h3, h8]
              ring
            · simp only [applyOp, hf, if_neg hst]
              show IdsOk (replaceFirst s.openPositions pid (runTPPos s p0 results).p)
              unfold IdsOk
              rw [replaceFirst_map_id s.openPositions pid p0
                (runTPPos s p0 results).p hf h4]
              exact hids
  | closePos pid result =>
      cases hf : s.openPositions.find? (fun q => q.id == pid) with
      | none =>
          constructor
          · simp only [applyOp, hf, driftOp]
            ring
          · simpa [applyOp, hf] using hids
      | some p0 =>
          by_cases hst : p0.status = PosStatus.closed
          · constructor
            · simp only [applyOp, hf, if_pos hst, driftOp]
              ring
            · simpa [applyOp, hf, hst] using hids
          · constructor
            · have hcom := committedCapital_filter s.openPositions pid p0 hids hf
              simp only [applyOp, hf, if_neg hst, driftOp, gap]
              rw [hcom]
              ring
            · simp only [applyOp, hf, if_neg hst]
              show IdsOk (s.openPositions.filter (fun q => q.id != pid))
              exact IdsOk_filter s.openPositions _ hids

/-- The ledger gap accumulated along a trace equals the summed drift. -/
theorem run_gap (ops : List Op) :
    ∀ (s : BotState), IdsOk s.openPositions →
    gap (run s ops) = gap s + runDrift s ops := by
  induction ops with
  | nil =>
      intro s _
      show gap s = gap s + 0
      ring
  | cons op ops ih =>
      intro s hids
      have h := applyOp_gap s op hids
      show gap (run (applyOp s op) ops)
          = gap s + (driftOp s op + runDrift (applyOp s op) ops)
      rw [ih (applyOp s op) h.2, h.1]
      ring

/-- C1 counterexample: after a profitable full close, available capital was
credited the realized proceeds (0.2) while `totalCapitalSol` still holds the
initial balance, so `available = total − Σ committed` fails exactly —
0.7 ≠ 0.6 − 0 — not merely within floating tolerance. -/
theorem ledger_invariant_counterexample :
    (run (mkInit 0.6) c1Ops).availableCapitalSol = 0.7 ∧
    (run (mkInit 0.6) c1Ops).totalCapitalSol = 0.6 ∧
    committedCapital (run (mkInit 0.6) c1Ops).openPositions = 0 ∧
    ¬ ((run (mkInit 0.6) c1Ops).availableCapitalSol
        = (run (mkInit 0.6) c1Ops).totalCapitalSol
          - committedCapital (run (mkInit 0.6) c1Ops).openPositions) := by
  have hne : ¬ (PosStatus.opn = PosStatus.closed) := by decide
  norm_num [run, c1Ops, applyOp, mkInit, mkPosition, committedCapital,
    List.find?, List.filter, if_neg hne, CONFIG.risk.initialCapital]

/-- C1 amended: along every event trace from a fresh ledger,
`availableCapitalSol = totalCapitalSol − Σ(entryAmountSol × remainingPercent/100)
+ drift`, where the drift is the accumulated realized difference of the
trace's exits — each successful partial sell or close credits the realized
proceeds instead of the released committed capital.  Position opens keep the
drift at zero, so the claimed equality holds exactly up to the first exit
whose proceeds differ from its released committed capital. -/
theorem available_capital_drift (balance : ℚ) (ops : List Op) :
    (run (mkInit balance) ops).availableCapitalSol
      = (run (mkInit balance) ops).totalCapitalSol
        - committedCapital (run (mkInit balance) ops).openPositions
        + runDrift (mkInit balance) ops := by
  have h := run_gap ops (mkInit balance) (by simp [mkInit, IdsOk])
  have hinit : gap (mkInit balance) = 0 := by
    simp [gap, mkInit, committedCapital]
  rw [hinit] at h
  unfold gap at h
  linarith
